import Mathlib

/-!
A shallow embedding of the label-table component of a small MIPS
assembler (`LabelTable.c`), together with proofs of the properties the
design document states about it.

Modelling conventions:
* a possibly-NULL `LabelTable *` handle is `Option LabelTable`;
* the `entries` field is `Option (List LabelEntry)`: `none` models a
  NULL entries pointer, and the list holds the populated slots of the
  backing array (indices `0 .. nbrLabels - 1`); memory freshly obtained
  from `malloc` holds no populated slots, hence `some []`;
* `malloc` / `strdup` outcomes are explicit Boolean oracles
  (`mallocOk`, `strdupOk`); `true` means the allocation succeeds;
* `printError` output is modelled by returning the list of messages
  printed during the call, in order;
* C `int` sizes and counts are `Nat` (they are never negative in any
  reachable state); addresses are `Int`, since the `-1` not-found
  sentinel of `findLabel` interacts with stored addresses.
-/

/-- Message printed when a NULL table handle is detected (`ERROR0`). -/
def ERROR0 : String := "Error: no label table exists.\n"

/-- Message intended for a duplicate label (`ERROR1`). -/
def ERROR1 : String := "Error: a duplicate label was found.\n"

/-- Message intended for an allocation failure (`ERROR2`). -/
def ERROR2 : String := "Error: cannot allocate space in memory.\n"

/-- One `(label, address)` pair of the table (`LabelEntry`). -/
structure LabelEntry where
  label : String
  address : Int
deriving DecidableEq

/-- The label table: `capacity` slots allocated, `nbrLabels` populated,
`entries` the backing array (see the module conventions above). -/
structure LabelTable where
  capacity : Nat
  nbrLabels : Nat
  entries : Option (List LabelEntry)
deriving DecidableEq

/-- `verifyTableExists`: returns 1 when the handle is non-NULL, and
prints `ERROR0` and returns 0 otherwise. -/
def verifyTableExists : Option LabelTable → Bool × List String
  | none => (false, [ERROR0])
  | some _ => (true, [])

/-- The scan loop of `findLabel`: walk the populated slots in order and
return the address of the first entry whose name is `strcmp`-equal to
`label`, or `-1` when no entry matches. -/
def scanEntries : List LabelEntry → String → Int
  | [], _ => -1
  | e :: rest, label => if e.label = label then e.address else scanEntries rest label

/-- The populated slots of a table: the first `nbrLabels` elements of
the backing array (the loop bound `i < nbrLabels` in the source). -/
def tableEntries (t : LabelTable) : List LabelEntry :=
  (t.entries.getD []).take t.nbrLabels

/-- `findLabel`: `-1` (after `verifyTableExists` prints `ERROR0`) when
the handle is NULL, otherwise the linear scan over the populated
slots. -/
def findLabel (table : Option LabelTable) (label : String) : Int × List String :=
  match table with
  | none => (-1, [ERROR0])
  | some t => (scanEntries (tableEntries t) label, [])

/-- `tableInit`: on a NULL handle, `verifyTableExists` prints `ERROR0`,
`tableInit` prints `ERROR0` again and returns.  Otherwise it sets
`capacity = 0`, points `entries` at a freshly `malloc`ed buffer with no
populated slots (NULL when the allocation fails; the source does not
check this `malloc`), and sets `nbrLabels = 0`. -/
def tableInit (mallocOk : Bool) (table : Option LabelTable) :
    Option LabelTable × List String :=
  match table with
  | none => (none, [ERROR0, ERROR0])
  | some _ => (some ⟨0, 0, if mallocOk then some [] else none⟩, [])

/-- `tableResize`: NULL handle gives `ERROR0` and 0; a failed `malloc`
gives `ERROR2` and 0 with the table untouched.  Otherwise, when the old
`entries` pointer is non-NULL, `smaller = min nbrLabels newSize` entries
are copied into the new buffer and `nbrLabels` is set to `smaller`
(truncation on shrink); when it is NULL the copy and the truncation are
skipped.  In both cases `entries` is replaced, `capacity` becomes
`newSize`, and 1 is returned. -/
def tableResize (mallocOk : Bool) (table : Option LabelTable) (newSize : Nat) :
    Int × Option LabelTable × List String :=
  match table with
  | none => (0, none, [ERROR0])
  | some t =>
    if mallocOk = false then (0, some t, [ERROR2])
    else
      match t.entries with
      | some l =>
          (1, some ⟨newSize, min t.nbrLabels newSize,
                    some (l.take (min t.nbrLabels newSize))⟩, [])
      | none => (1, some ⟨newSize, t.nbrLabels, some []⟩, [])

/-- The write `entries[i] = e` on the backing array: overwrite slot `i`
when it is populated, populate the next slot when `i` equals the number
of populated slots (the only case `addLabel` reaches from a reachable
table). -/
def storeAt (l : List LabelEntry) (i : Nat) (e : LabelEntry) : List LabelEntry :=
  if i < l.length then l.set i e else l ++ [e]

/-- `addLabel`: NULL handle gives `ERROR0` and 0.  A failed `strdup`
prints `ERROR1` — the duplicate-label message — and returns 0.  When
`findLabel` does not return `-1` the label is taken to be a duplicate:
`ERROR2` — the allocation-failure message — is printed, the table is
left unchanged and 1 is returned.  Otherwise, when
`nbrLabels >= capacity`, the table is resized to `2 * (nbrLabels + 1)`;
the return value of `tableResize` is ignored by the source.  The entry
(holding the caller's `label` pointer, not the `strdup` copy) is then
written at index `nbrLabels`, `nbrLabels` is incremented and 1 is
returned. -/
def addLabel (strdupOk mallocOk : Bool) (table : Option LabelTable)
    (label : String) (PC : Int) : Int × Option LabelTable × List String :=
  match table with
  | none => (0, none, [ERROR0])
  | some t =>
    if strdupOk = false then (0, some t, [ERROR1])
    else if (findLabel (some t) label).1 ≠ -1 then
      (1, some t, [ERROR2])
    else
      let resized :=
        if t.capacity ≤ t.nbrLabels then
          tableResize mallocOk (some t) (2 * (t.nbrLabels + 1))
        else (1, some t, [])
      let t1 := resized.2.1.getD t
      (1, some ⟨t1.capacity, t1.nbrLabels + 1,
                some (storeAt (t1.entries.getD []) t1.nbrLabels ⟨label, PC⟩)⟩,
       resized.2.2)

/-- One `addLabel` call with all allocations succeeding, viewed as a
state transformer on the table. -/
def addStep (t : LabelTable) (c : String × Int) : LabelTable :=
  ((addLabel true true (some t) c.1 c.2).2.1).getD t

/-- The table produced by `tableInit` on a non-NULL handle when its
`malloc` succeeds. -/
def initialTable : LabelTable := ⟨0, 0, some []⟩

/-- A sequence of `addLabel` calls applied to a starting table. -/
def runFrom (t : LabelTable) (calls : List (String × Int)) : LabelTable :=
  calls.foldl addStep t

/-- A sequence of `addLabel` calls applied to a freshly initialized
table, all allocations succeeding. -/
def runAdds (calls : List (String × Int)) : LabelTable :=
  runFrom initialTable calls

/-- Well-formedness of a table state, as established by `tableInit` and
maintained by the operations: the entries pointer is non-NULL, the
populated slots are exactly the first `nbrLabels`, and `nbrLabels` does
not exceed `capacity`. -/
def WFTable (t : LabelTable) : Prop :=
  t.entries ≠ none ∧ (t.entries.getD []).length = t.nbrLabels ∧
    t.nbrLabels ≤ t.capacity

/-- The uniqueness invariant: the names of the populated entries are
pairwise distinct. -/
def namesDistinct (t : LabelTable) : Prop :=
  (List.map LabelEntry.label (tableEntries t)).Nodup

/-- Lookup as the specification describes it: the address of the first
entry whose name matches exactly, or `-1` when none does. -/
def findSpecAddr (l : List LabelEntry) (name : String) : Int :=
  match l.find? (fun e => e.label == name) with
  | some e => e.address
  | none => -1

/-- The address supplied by the first call of a sequence that carries a
given name, or `-1` when no call does. -/
def firstCallAddr (calls : List (String × Int)) (name : String) : Int :=
  match calls.find? (fun c => c.1 == name) with
  | some c => c.2
  | none => -1

instance (t : LabelTable) : Decidable (WFTable t) :=
  inferInstanceAs (Decidable (_ ∧ _ ∧ _))

instance (t : LabelTable) : Decidable (namesDistinct t) :=
  inferInstanceAs (Decidable (List.Nodup _))

lemma tableEntries_of_WF (t : LabelTable) (hWF : WFTable t) :
    tableEntries t = t.entries.getD [] := by
  obtain ⟨-, hlen, -⟩ := hWF
  rw [tableEntries, ← hlen, List.take_length]

lemma tableEntries_length (t : LabelTable) (hWF : WFTable t) :
    (tableEntries t).length = t.nbrLabels := by
  rw [tableEntries_of_WF t hWF]
  exact hWF.2.1

lemma scanEntries_of_forall_ne (l : List LabelEntry) (name : String)
    (h : ∀ e ∈ l, e.label ≠ name) : scanEntries l name = -1 := by
  induction l with
  | nil => rfl
  | cons e rest ih =>
    rw [scanEntries, if_neg (h e (List.mem_cons_self e rest))]
    exact ih fun x hx => h x (List.mem_cons_of_mem e hx)

lemma scanEntries_append_of_forall_ne (l₁ l₂ : List LabelEntry) (name : String)
    (h : ∀ e ∈ l₁, e.label ≠ name) :
    scanEntries (l₁ ++ l₂) name = scanEntries l₂ name := by
  induction l₁ with
  | nil => rfl
  | cons e rest ih =>
    rw [List.cons_append, scanEntries, if_neg (h e (List.mem_cons_self e rest))]
    exact ih fun x hx => h x (List.mem_cons_of_mem e hx)

lemma scanEntries_append_of_mem (l₁ l₂ : List LabelEntry) (name : String)
    (h : ∃ e ∈ l₁, e.label = name) :
    scanEntries (l₁ ++ l₂) name = scanEntries l₁ name := by
  induction l₁ with
  | nil => simp at h
  | cons e rest ih =>
    by_cases he : e.label = name
    · rw [List.cons_append, scanEntries, if_pos he, scanEntries, if_pos he]
    · rw [List.cons_append, scanEntries, if_neg he, scanEntries, if_neg he]
      obtain ⟨x, hx, hxname⟩ := h
      rcases List.mem_cons.mp hx with rfl | hx
      · exact absurd hxname he
      · exact ih ⟨x, hx, hxname⟩

lemma scanEntries_eq_neg_one_iff (l : List LabelEntry) (name : String)
    (haddr : ∀ e ∈ l, e.address ≠ -1) :
    scanEntries l name = -1 ↔ ∀ e ∈ l, e.label ≠ name := by
  induction l with
  | nil => simp [scanEntries]
  | cons e rest ih =>
    by_cases he : e.label = name
    · rw [scanEntries, if_pos he]
      simp only [List.mem_cons]
      constructor
      · intro habs
        exact absurd habs (haddr e (List.mem_cons_self e rest))
      · intro h
        exact absurd he (h e (Or.inl rfl))
    · rw [scanEntries, if_neg he,
          ih fun x hx => haddr x (List.mem_cons_of_mem e hx)]
      simp only [List.mem_cons]
      constructor
      · intro h x hx
        rcases hx with rfl | hx
        · exact he
        · exact h x hx
      · intro h x hx
        exact h x (Or.inr hx)

lemma scanEntries_eq_findSpecAddr (l : List LabelEntry) (name : String) :
    scanEntries l name = findSpecAddr l name := by
  induction l with
  | nil => rfl
  | cons e rest ih =>
    by_cases he : e.label = name
    · simp [scanEntries, findSpecAddr, List.find?_cons, he]
    · simp [scanEntries, findSpecAddr, List.find?_cons, he] at ih ⊢
      exact ih

lemma addLabel_new (t : LabelTable) (name : String) (pc : Int)
    (hWF : WFTable t) (hnew : scanEntries (tableEntries t) name = -1) :
    addLabel true true (some t) name pc =
      (1, some ⟨if t.capacity ≤ t.nbrLabels then 2 * (t.nbrLabels + 1) else t.capacity,
                t.nbrLabels + 1,
                some (tableEntries t ++ [⟨name, pc⟩])⟩, []) := by
  obtain ⟨cap, n, ents⟩ := t
  obtain ⟨hne, hlen, hcap⟩ := hWF
  cases ents with
  | none => exact absurd rfl hne
  | some l =>
    have hlen' : l.length = n := hlen
    have hents : tableEntries ⟨cap, n, some l⟩ = l := by
      rw [tableEntries, Option.getD_some, ← hlen', List.take_length]
    have hnew' : scanEntries l name = -1 := by rw [← hents]; exact hnew
    have htk : List.take n l = l := by rw [← hlen', List.take_length]
    have hst : storeAt l n ⟨name, pc⟩ = l ++ [⟨name, pc⟩] := by
      rw [storeAt, if_neg (by omega)]
    have hmin : min n (2 * (n + 1)) = n := by omega
    by_cases hc : cap ≤ n
    · simp [addLabel, findLabel, tableResize, tableEntries, hnew', htk, hmin,
        hst, hc]
    · simp [addLabel, findLabel, tableResize, tableEntries, hnew', htk, hst, hc]

lemma addStep_dup (t : LabelTable) (c : String × Int)
    (hdup : scanEntries (tableEntries t) c.1 ≠ -1) : addStep t c = t := by
  simp [addStep, addLabel, findLabel, hdup]

lemma addStep_new (t : LabelTable) (c : String × Int)
    (hWF : WFTable t) (hnew : scanEntries (tableEntries t) c.1 = -1) :
    addStep t c =
      ⟨if t.capacity ≤ t.nbrLabels then 2 * (t.nbrLabels + 1) else t.capacity,
       t.nbrLabels + 1, some (tableEntries t ++ [⟨c.1, c.2⟩])⟩ := by
  rw [addStep, addLabel_new t c.1 c.2 hWF hnew]
  rfl

lemma WFTable_addStep_new (t : LabelTable) (c : String × Int)
    (hWF : WFTable t) (hnew : scanEntries (tableEntries t) c.1 = -1) :
    WFTable (addStep t c) ∧
      tableEntries (addStep t c) = tableEntries t ++ [⟨c.1, c.2⟩] := by
  have hE := tableEntries_length t hWF
  rw [addStep_new t c hWF hnew]
  have hWF' : WFTable
      ⟨if t.capacity ≤ t.nbrLabels then 2 * (t.nbrLabels + 1) else t.capacity,
       t.nbrLabels + 1, some (tableEntries t ++ [⟨c.1, c.2⟩])⟩ := by
    refine ⟨by simp, ?_, ?_⟩
    · simp [hE]
    · show t.nbrLabels + 1 ≤
        if t.capacity ≤ t.nbrLabels then 2 * (t.nbrLabels + 1) else t.capacity
      by_cases hc : t.capacity ≤ t.nbrLabels
      · rw [if_pos hc]; omega
      · rw [if_neg hc]; omega
  refine ⟨hWF', ?_⟩
  rw [tableEntries_of_WF _ hWF']
  rfl

lemma firstCallAddr_cons_eq (c : String × Int) (rest : List (String × Int))
    (name : String) (h : c.1 = name) : firstCallAddr (c :: rest) name = c.2 := by
  simp [firstCallAddr, List.find?_cons, h]

lemma firstCallAddr_cons_ne (c : String × Int) (rest : List (String × Int))
    (name : String) (h : c.1 ≠ name) :
    firstCallAddr (c :: rest) name = firstCallAddr rest name := by
  have hb : (c.1 == name) = false := beq_eq_false_iff_ne.mpr h
  simp [firstCallAddr, List.find?_cons, hb]

lemma runFrom_spec (calls : List (String × Int)) :
    ∀ t : LabelTable, WFTable t →
      (∀ e ∈ tableEntries t, e.address ≠ -1) →
      (∀ c ∈ calls, c.2 ≠ -1) →
      WFTable (runFrom t calls) ∧
      (∀ e ∈ tableEntries (runFrom t calls), e.address ≠ -1) ∧
      ((List.map LabelEntry.label (tableEntries t)).Nodup →
        (List.map LabelEntry.label (tableEntries (runFrom t calls))).Nodup) ∧
      (∀ name, scanEntries (tableEntries (runFrom t calls)) name =
        if scanEntries (tableEntries t) name = -1 then firstCallAddr calls name
        else scanEntries (tableEntries t) name) := by
  induction calls with
  | nil =>
    intro t hWF haddr _
    simp only [runFrom, List.foldl_nil]
    refine ⟨hWF, haddr, fun h => h, fun name => ?_⟩
    by_cases h : scanEntries (tableEntries t) name = -1
    · rw [if_pos h, h]; rfl
    · rw [if_neg h]
  | cons c rest ih =>
    intro t hWF haddr hcalls
    have hc2 : c.2 ≠ -1 := hcalls c (List.mem_cons_self c rest)
    have hrest : ∀ x ∈ rest, x.2 ≠ -1 :=
      fun x hx => hcalls x (List.mem_cons_of_mem c hx)
    by_cases hdup : scanEntries (tableEntries t) c.1 = -1
    · -- the name is new: the entry is appended
      have hnomem : ∀ e ∈ tableEntries t, e.label ≠ c.1 :=
        (scanEntries_eq_neg_one_iff _ _ haddr).mp hdup
      obtain ⟨hWF2, hE2⟩ := WFTable_addStep_new t c hWF hdup
      have haddr2 : ∀ e ∈ tableEntries (addStep t c), e.address ≠ -1 := by
        rw [hE2]
        intro e he
        rcases List.mem_append.mp he with h | h
        · exact haddr e h
        · rw [List.mem_singleton.mp h]
          exact hc2
      obtain ⟨hWFr, haddrr, hnodupr, hfindr⟩ := ih (addStep t c) hWF2 haddr2 hrest
      have hrun : runFrom t (c :: rest) = runFrom (addStep t c) rest := by
        simp only [runFrom, List.foldl_cons]
      rw [hrun]
      refine ⟨hWFr, haddrr, ?_, ?_⟩
      · intro hnd
        apply hnodupr
        rw [hE2, List.map_append]
        rw [List.nodup_append]
        refine ⟨hnd, List.nodup_singleton _, ?_⟩
        intro a ha hb
        simp only [List.map_cons, List.map_nil, List.mem_singleton] at hb
        obtain ⟨e, he, rfl⟩ := List.mem_map.mp ha
        exact hnomem e he hb
      · intro name
        rw [hfindr name]
        by_cases hn : name = c.1
        · rw [hn]
          have hsc2 : scanEntries (tableEntries (addStep t c)) c.1 = c.2 := by
            rw [hE2, scanEntries_append_of_forall_ne _ _ _ hnomem]
            simp [scanEntries]
          rw [hsc2, if_neg hc2, if_pos hdup, firstCallAddr_cons_eq c rest c.1 rfl]
        · have hcn : c.1 ≠ name := fun h => hn h.symm
          by_cases hsc : scanEntries (tableEntries t) name = -1
          · have hnomem' : ∀ e ∈ tableEntries t, e.label ≠ name :=
              (scanEntries_eq_neg_one_iff _ _ haddr).mp hsc
            have hsc2 : scanEntries (tableEntries (addStep t c)) name = -1 := by
              rw [hE2, scanEntries_append_of_forall_ne _ _ _ hnomem']
              simp [scanEntries, hcn]
            rw [if_pos hsc2, if_pos hsc, firstCallAddr_cons_ne c rest name hcn]
          · have hmem : ∃ e ∈ tableEntries t, e.label = name := by
              by_contra h
              push_neg at h
              exact hsc (scanEntries_of_forall_ne _ _ h)
            have hsc2 : scanEntries (tableEntries (addStep t c)) name =
                scanEntries (tableEntries t) name := by
              rw [hE2, scanEntries_append_of_mem _ _ _ hmem]
            rw [hsc2, if_neg hsc, if_neg hsc]
    · -- the name is already present: the call is a no-op
      have hstep : addStep t c = t := addStep_dup t c hdup
      have hrr : runFrom t (c :: rest) = runFrom t rest := by
        simp only [runFrom, List.foldl_cons, hstep]
      obtain ⟨hWFr, haddrr, hnodupr, hfindr⟩ := ih t hWF haddr hrest
      rw [hrr]
      refine ⟨hWFr, haddrr, hnodupr, ?_⟩
      intro name
      rw [hfindr name]
      by_cases hn : name = c.1
      · subst hn
        rw [if_neg hdup, if_neg hdup]
      · have hcn : c.1 ≠ name := fun h => hn h.symm
        by_cases hsc : scanEntries (tableEntries t) name = -1
        · rw [if_pos hsc, if_pos hsc, firstCallAddr_cons_ne c rest name hcn]
        · rw [if_neg hsc, if_neg hsc]

lemma addLabel_dup (t : LabelTable) (name : String) (pc : Int)
    (hdup : scanEntries (tableEntries t) name ≠ -1) :
    addLabel true true (some t) name pc = (1, some t, [ERROR2]) := by
  simp [addLabel, findLabel, hdup]

lemma WFTable_initialTable : WFTable initialTable := by decide

lemma tableEntries_initialTable : tableEntries initialTable = [] := rfl

lemma addresses_initialTable :
    ∀ e ∈ tableEntries initialTable, e.address ≠ -1 := by decide

/-- C1 (amended): for every sequence of `addLabel` calls from a freshly
initialized table in which no call supplies the address `-1` (the
`findLabel` not-found sentinel; per the data model addresses are
non-negative), the table never contains two entries with the same name;
and a second `addLabel` with a name already in such a table is a no-op
that leaves count, entry names and addresses unchanged and returns the
non-fatal result 1. -/
theorem addLabel_unique_names_amended :
    (∀ calls : List (String × Int), (∀ c ∈ calls, c.2 ≠ -1) →
      namesDistinct (runAdds calls)) ∧
    (∀ (t : LabelTable) (name : String) (pc : Int),
      WFTable t → (∀ e ∈ tableEntries t, e.address ≠ -1) →
      (∃ e ∈ tableEntries t, e.label = name) →
      addLabel true true (some t) name pc = (1, some t, [ERROR2])) := by
  constructor
  · intro calls hcalls
    have h := runFrom_spec calls initialTable WFTable_initialTable
      addresses_initialTable hcalls
    exact h.2.2.1 (by decide)
  · intro t name pc hWF haddr hmem
    have hne : scanEntries (tableEntries t) name ≠ -1 := by
      intro h
      obtain ⟨e, he, hel⟩ := hmem
      exact (scanEntries_eq_neg_one_iff _ _ haddr).mp h e he hel
    exact addLabel_dup t name pc hne

/-- Witness for C1: both parts of the amended claim evaluated at
concrete inputs. -/
theorem addLabel_unique_names_amended_witness :
    namesDistinct (runAdds [("A", 0), ("B", 4), ("A", 8)]) ∧
    addLabel true true (some ⟨2, 1, some [⟨"A", 0⟩]⟩) "A" 8 =
      (1, some ⟨2, 1, some [⟨"A", 0⟩]⟩, [ERROR2]) :=
  ⟨addLabel_unique_names_amended.1 [("A", 0), ("B", 4), ("A", 8)] (by decide),
   addLabel_unique_names_amended.2 ⟨2, 1, some [⟨"A", 0⟩]⟩ "A" 8 (by decide)
     (by decide) (by decide)⟩

/-- Counterexample to C1 as stated: after `addLabel("A", -1)` followed
by `addLabel("A", 5)` the table holds two entries named "A", because
`addLabel` tests for duplicates with `findLabel(...) != -1` and the
stored address `-1` is indistinguishable from the not-found sentinel. -/
theorem addLabel_unique_names_cex :
    tableEntries (runAdds [("A", -1), ("A", 5)]) = [⟨"A", -1⟩, ⟨"A", 5⟩] ∧
    ¬ namesDistinct (runAdds [("A", -1), ("A", 5)]) := by decide

/-- C2 (amended): `findLabel` on a NULL table returns `-1`; on a table
it returns the address of the first entry whose name matches exactly,
`-1` when none matches; and, provided no call supplied the sentinel
address `-1`, for a table built by a sequence of `addLabel` calls it
returns exactly the address supplied by the first call carrying the
name (in particular the address supplied at insertion for every entry
actually added, and `-1` for every name never added). -/
theorem findLabel_correct_amended :
    (∀ name : String, findLabel none name = (-1, [ERROR0])) ∧
    (∀ (t : LabelTable) (name : String),
      (findLabel (some t) name).1 = findSpecAddr (tableEntries t) name) ∧
    (∀ (calls : List (String × Int)) (name : String),
      (∀ c ∈ calls, c.2 ≠ -1) →
      (findLabel (some (runAdds calls)) name).1 = firstCallAddr calls name) := by
  refine ⟨fun _ => rfl, fun t name => scanEntries_eq_findSpecAddr _ _, ?_⟩
  intro calls name hcalls
  have h := (runFrom_spec calls initialTable WFTable_initialTable
    addresses_initialTable hcalls).2.2.2 name
  have hinit : scanEntries (tableEntries initialTable) name = -1 := rfl
  rw [if_pos hinit] at h
  exact h

/-- Witness for C2: the amended lookup correctness evaluated on a
concrete two-call sequence. -/
theorem findLabel_correct_amended_witness :
    (findLabel (some (runAdds [("A", 0), ("B", 4)])) "B").1 =
      firstCallAddr [("A", 0), ("B", 4)] "B" ∧
    firstCallAddr [("A", 0), ("B", 4)] "B" = 4 :=
  ⟨findLabel_correct_amended.2.2 [("A", 0), ("B", 4)] "B" (by decide), by decide⟩

/-- Counterexample to C2 as stated: starting from the table built by
`addLabel("A", -1)`, the call `addLabel("A", 5)` succeeds (returns 1 and
appends its entry), yet a subsequent `findLabel("A")` returns `-1`, not
the address 5 supplied at that insertion. -/
theorem findLabel_correct_cex :
    addLabel true true (some (runAdds [("A", -1)])) "A" 5 =
      (1, some ⟨2, 2, some [⟨"A", -1⟩, ⟨"A", 5⟩]⟩, []) ∧
    (findLabel (some ⟨2, 2, some [⟨"A", -1⟩, ⟨"A", 5⟩]⟩) "A").1 = -1 ∧
    (-1 : Int) ≠ 5 := by decide

/-- C3 (code bug): on the duplicate-label path `addLabel` prints
`ERROR2`, the allocation-failure message, and on the failed-`strdup`
allocation path it prints `ERROR1`, the duplicate-label message — the
two message constants are swapped relative to the conditions they
report, contradicting the source's own comments on those paths. -/
theorem addLabel_error_messages_swapped_bug :
    addLabel true true (some ⟨2, 1, some [⟨"L", 0⟩]⟩) "L" 4 =
      (1, some ⟨2, 1, some [⟨"L", 0⟩]⟩, [ERROR2]) ∧
    addLabel false true (some ⟨2, 1, some [⟨"L", 0⟩]⟩) "M" 8 =
      (0, some ⟨2, 1, some [⟨"L", 0⟩]⟩, [ERROR1]) ∧
    ERROR1 = "Error: a duplicate label was found.\n" ∧
    ERROR2 = "Error: cannot allocate space in memory.\n" := by decide

/-- C4: for a table whose populated slots fill the backing list,
`tableResize(newCapacity)` succeeds, sets `capacity` to exactly
`newCapacity`, truncates the count to `min count newCapacity` (hence to
`newCapacity` when shrinking below the count), and keeps exactly the
first `min count newCapacity` entries in their original order. -/
theorem tableResize_spec (t : LabelTable) (l : List LabelEntry) (newSize : Nat)
    (hl : t.entries = some l) (hlen : l.length = t.nbrLabels) :
    ∃ t', tableResize true (some t) newSize = (1, some t', []) ∧
      t'.capacity = newSize ∧
      t'.nbrLabels = min t.nbrLabels newSize ∧
      tableEntries t' = (tableEntries t).take (min t.nbrLabels newSize) := by
  have hents : tableEntries t = l := by
    rw [tableEntries, hl, Option.getD_some, ← hlen, List.take_length]
  refine ⟨⟨newSize, min t.nbrLabels newSize,
    some (l.take (min t.nbrLabels newSize))⟩, ?_, rfl, rfl, ?_⟩
  · simp [tableResize, hl]
  · simp only [tableEntries, Option.getD_some, hl, List.take_take]
    congr 1
    omega

/-- Witness for C4: shrinking a two-entry table to capacity 1 keeps the
first entry and truncates the count. -/
theorem tableResize_spec_witness :
    ∃ t', tableResize true (some ⟨2, 2, some [⟨"A", 0⟩, ⟨"B", 4⟩]⟩) 1 =
        (1, some t', []) ∧
      t'.capacity = 1 ∧
      t'.nbrLabels = min 2 1 ∧
      tableEntries t' =
        (tableEntries ⟨2, 2, some [⟨"A", 0⟩, ⟨"B", 4⟩]⟩).take (min 2 1) :=
  tableResize_spec ⟨2, 2, some [⟨"A", 0⟩, ⟨"B", 4⟩]⟩ [⟨"A", 0⟩, ⟨"B", 4⟩] 1 rfl rfl

/-- Supporting result: `capacity >= count` holds after every mutating
operation whose allocations succeed — `tableInit` establishes it, and
`addLabel` and `tableResize` preserve it from any well-formed table. -/
theorem capacity_ge_count_preserved :
    (∀ t : LabelTable, (tableInit true (some t)).1 = some initialTable ∧
      initialTable.nbrLabels ≤ initialTable.capacity) ∧
    (∀ (t t' : LabelTable) (name : String) (pc : Int), WFTable t →
      (addLabel true true (some t) name pc).2.1 = some t' →
      t'.nbrLabels ≤ t'.capacity) ∧
    (∀ (t t' : LabelTable) (newSize : Nat), WFTable t →
      (tableResize true (some t) newSize).2.1 = some t' →
      t'.nbrLabels ≤ t'.capacity) := by
  refine ⟨fun t => ⟨rfl, Nat.le_refl 0⟩, ?_, ?_⟩
  · intro t t' name pc hWF h
    by_cases hdup : scanEntries (tableEntries t) name = -1
    · rw [addLabel_new t name pc hWF hdup] at h
      simp only [Option.some.injEq] at h
      rw [← h]
      show t.nbrLabels + 1 ≤
        if t.capacity ≤ t.nbrLabels then 2 * (t.nbrLabels + 1) else t.capacity
      have hcap := hWF.2.2
      by_cases hc : t.capacity ≤ t.nbrLabels
      · rw [if_pos hc]; omega
      · rw [if_neg hc]; omega
    · rw [addLabel_dup t name pc hdup] at h
      simp only [Option.some.injEq] at h
      rw [← h]
      exact hWF.2.2
  · intro t t' newSize hWF h
    obtain ⟨hne, hlen, hcap⟩ := hWF
    cases hl : t.entries with
    | none => exact absurd hl hne
    | some l =>
      simp only [tableResize, hl, Bool.true_eq_false, if_neg, ite_false,
        reduceIte, Option.some.injEq] at h
      rw [← h]
      exact Nat.min_le_right _ _

/-- The preservation statements applied to a concrete well-formed
table. -/
theorem capacity_ge_count_preserved_witness :
    WFTable initialTable ∧
    (addLabel true true (some initialTable) "A" 0).2.1 =
      some ⟨2, 1, some [⟨"A", 0⟩]⟩ ∧
    (⟨2, 1, some [⟨"A", 0⟩]⟩ : LabelTable).nbrLabels ≤
      (⟨2, 1, some [⟨"A", 0⟩]⟩ : LabelTable).capacity ∧
    (tableResize true (some initialTable) 3).2.1 = some ⟨3, 0, some []⟩ ∧
    (⟨3, 0, some []⟩ : LabelTable).nbrLabels ≤
      (⟨3, 0, some []⟩ : LabelTable).capacity :=
  ⟨by decide, by decide,
   capacity_ge_count_preserved.2.1 initialTable ⟨2, 1, some [⟨"A", 0⟩]⟩ "A" 0
     (by decide) (by decide),
   by decide,
   capacity_ge_count_preserved.2.2 initialTable ⟨3, 0, some []⟩ 3
     (by decide) (by decide)⟩

/-- C6: calling `addLabel` with a new name on a well-formed table whose
count equals its capacity grows the table to capacity exactly
`2 * (count + 1)`, then appends the entry and increments the count; the
new capacity leaves room for the appended entry (also from capacity
zero). -/
theorem addLabel_growth_rule (t : LabelTable) (name : String) (pc : Int)
    (hWF : WFTable t) (hfull : t.nbrLabels = t.capacity)
    (hnew : ∀ e ∈ tableEntries t, e.label ≠ name) :
    addLabel true true (some t) name pc =
      (1, some ⟨2 * (t.nbrLabels + 1), t.nbrLabels + 1,
                some (tableEntries t ++ [⟨name, pc⟩])⟩, []) ∧
    t.nbrLabels + 1 ≤ 2 * (t.nbrLabels + 1) := by
  have hscan : scanEntries (tableEntries t) name = -1 :=
    scanEntries_of_forall_ne _ _ hnew
  have hc : t.capacity ≤ t.nbrLabels := Nat.le_of_eq hfull.symm
  refine ⟨?_, by omega⟩
  rw [addLabel_new t name pc hWF hscan, if_pos hc]

/-- Witness for C6: a full one-entry table grows to capacity 4 on the
next insertion. -/
theorem addLabel_growth_rule_witness :
    addLabel true true (some ⟨1, 1, some [⟨"B", 0⟩]⟩) "A" 4 =
      (1, some ⟨4, 2, some [⟨"B", 0⟩, ⟨"A", 4⟩]⟩, []) ∧ (2 : Nat) ≤ 4 := by
  have h := addLabel_growth_rule ⟨1, 1, some [⟨"B", 0⟩]⟩ "A" 4 (by decide) rfl
    (by decide)
  exact h

/-- C7 (code bug): when the `malloc` inside the growth `tableResize`
fails during an `addLabel` of a new name, `tableResize` itself reports
`ERROR2` and returns 0 leaving the table unchanged, but `addLabel`
ignores that result: it still appends the entry (writing past the
unchanged capacity) and returns 1 — not the documented fatal 0 with no
entry appended. -/
theorem addLabel_alloc_failure_bug :
    addLabel true false (some initialTable) "A" 0 =
      (1, some ⟨0, 1, some [⟨"A", 0⟩]⟩, [ERROR2]) ∧
    (addLabel true false (some initialTable) "A" 0).1 ≠ 0 ∧
    tableResize false (some initialTable) 2 =
      (0, some initialTable, [ERROR2]) := by decide

/-- C8: each operation on a NULL table handle reports the table-missing
condition (`ERROR0`, via `verifyTableExists`) and returns its documented
failure result with the handle unchanged: `findLabel` returns `-1`,
`addLabel` returns 0, `tableResize` returns 0, `tableInit` just
returns. -/
theorem null_table_handling :
    (∀ name : String, findLabel none name = (-1, [ERROR0])) ∧
    (∀ (sOk mOk : Bool) (name : String) (pc : Int),
      addLabel sOk mOk none name pc = (0, none, [ERROR0])) ∧
    (∀ (mOk : Bool) (newSize : Nat),
      tableResize mOk none newSize = (0, none, [ERROR0])) ∧
    (∀ mOk : Bool, tableInit mOk none = (none, [ERROR0, ERROR0])) ∧
    verifyTableExists none = (false, [ERROR0]) :=
  ⟨fun _ => rfl, fun _ _ _ _ => rfl, fun _ _ => rfl, fun _ => rfl, rfl⟩

/-- C9: `addLabel` returns 0 exactly when the handle is NULL or the
`strdup` fails; in particular it returns 1 both on a rejected duplicate
(table unchanged) and on a successful append (table changed), so the
return value alone cannot distinguish the two. -/
theorem addLabel_return_value :
    (∀ (sOk mOk : Bool) (table : Option LabelTable) (name : String) (pc : Int),
      (addLabel sOk mOk table name pc).1 = 0 ↔ table = none ∨ sOk = false) ∧
    (addLabel true true (some ⟨2, 1, some [⟨"L", 0⟩]⟩) "L" 4).1 = 1 ∧
    (addLabel true true (some ⟨2, 1, some [⟨"L", 0⟩]⟩) "L" 4).2.1 =
      some ⟨2, 1, some [⟨"L", 0⟩]⟩ ∧
    (addLabel true true (some ⟨2, 1, some [⟨"L", 0⟩]⟩) "M" 8).1 = 1 ∧
    (addLabel true true (some ⟨2, 1, some [⟨"L", 0⟩]⟩) "M" 8).2.1 ≠
      some ⟨2, 1, some [⟨"L", 0⟩]⟩ := by
  refine ⟨?_, by decide, by decide, by decide, by decide⟩
  intro sOk mOk table name pc
  cases table with
  | none => cases sOk <;> simp [addLabel]
  | some t =>
    cases sOk with
    | false => simp [addLabel]
    | true =>
      simp only [addLabel, Bool.true_eq_false, if_neg, reduceIte]
      by_cases hdup : (findLabel (some t) name).1 ≠ -1
      · simp [hdup]
      · simp [hdup]

/-- C10: `tableInit` on a non-NULL handle leaves count 0 and capacity 0
(whether or not its own unchecked `malloc` succeeds), so the first
`addLabel` of any name always resizes to capacity `2 * (0 + 1) = 2`
before appending the first entry. -/
theorem tableInit_then_first_add :
    ∀ (mOk : Bool) (t : LabelTable) (name : String) (pc : Int),
      ∃ t₀, (tableInit mOk (some t)).1 = some t₀ ∧
        t₀.nbrLabels = 0 ∧ t₀.capacity = 0 ∧
        addLabel true true (some t₀) name pc =
          (1, some ⟨2, 1, some [⟨name, pc⟩]⟩, []) ∧
        2 = 2 * (0 + 1) := by
  intro mOk t name pc
  cases mOk with
  | true => exact ⟨initialTable, rfl, rfl, rfl, rfl, rfl⟩
  | false => exact ⟨⟨0, 0, none⟩, rfl, rfl, rfl, rfl, rfl⟩

/-- C5 (code bug): the claimed invariant `capacity >= count` after every
completed mutating operation is broken by the code when the growth
allocation inside `addLabel` fails — `addLabel` ignores the failed
`tableResize` and still appends and completes, leaving a table with
`capacity = 0 < count = 1`.  (When allocations succeed the invariant
does hold: see the supporting preservation theorem above.) -/
theorem capacity_ge_count_violation :
    (addLabel true false (some initialTable) "A" 0).2.1 =
      some ⟨0, 1, some [⟨"A", 0⟩]⟩ ∧
    (⟨0, 1, some [⟨"A", 0⟩]⟩ : LabelTable).capacity <
      (⟨0, 1, some [⟨"A", 0⟩]⟩ : LabelTable).nbrLabels := by decide
